import Mathlib

/-!
Shallow embedding of the metric-derivation and query-routing core of
`src/app.py` (a Streamlit business-intelligence dashboard over monday.com
board data), together with theorems checking the specification's claims
about it.

Modelling conventions:
* a pandas cell is a `Cell`: `absent` models `NaN`/missing, `str` a textual
  value, `num` a numeric value (floats are modelled as rationals, so the
  algebraic claims are about exact arithmetic);
* a `DataFrame` is the ordered list of column names plus the rows, each row a
  list of cells aligned with the column list (as produced by `fetch_board`);
* `pd.to_numeric(-, errors="coerce")` is modelled by `toNumeric`: optional
  sign, decimal digits with an optional fractional part, surrounding
  whitespace stripped; any other text coerces to `absent`;
* pandas sorting (`groupby(sort=True)` key sorting and
  `Series.sort_values`) is modelled by the stable insertion sort `sortBy`;
  for the small frames in the examples this coincides with pandas, whose
  sort on short arrays is an insertion sort;
* the Hugging Face call in `interpret_query` is modelled by an explicit
  `HFOutcome` argument describing what the network interaction produced.
-/

/-- A single cell of a board data frame: missing (`NaN`), text, or numeric. -/
inductive Cell where
  | absent : Cell
  | str : String → Cell
  | num : Rat → Cell
deriving DecidableEq

/-- A data frame: ordered column names and rows of cells aligned with them. -/
structure DataFrame where
  cols : List String
  rows : List (List Cell)
deriving DecidableEq

/-- Char-list prefix test (used to build the substring test below). -/
def charsStart : List Char → List Char → Bool
  | [], _ => true
  | _ :: _, [] => false
  | p :: ps, c :: cs => p == c && charsStart ps cs

/-- Char-list substring test. -/
def charsSub (p : List Char) : List Char → Bool
  | [] => p.isEmpty
  | c :: cs => charsStart p (c :: cs) || charsSub p cs

/-- Python's `pat in s` substring containment on strings. -/
def strContains (s pat : String) : Bool :=
  charsSub pat.data s.data

/-- Value of a list of decimal digit characters. -/
def digitsVal (l : List Char) : Nat :=
  l.foldl (fun a c => 10 * a + (c.toNat - 48)) 0

/-- Parse an unsigned decimal numeral, optionally with a fractional part. -/
def parseUnsignedChars (l : List Char) : Option Rat :=
  match l.splitOn '.' with
  | [ds] =>
    if !ds.isEmpty && ds.all Char.isDigit then some (digitsVal ds : Rat) else none
  | [ips, fps] =>
    if !(ips ++ fps).isEmpty && ips.all Char.isDigit && fps.all Char.isDigit then
      some ((digitsVal ips : Rat) + (digitsVal fps : Rat) / ((10 : Rat) ^ fps.length))
    else none
  | _ => none

/-- Model of `pd.to_numeric(x, errors="coerce")` on a text cell: optional
sign, decimal digits with optional fractional part, whitespace stripped;
anything else yields `none` (NaN). -/
def toNumeric (s : String) : Option Rat :=
  match s.trim.data with
  | [] => none
  | '-' :: rest => (parseUnsignedChars rest).map (fun q => -q)
  | '+' :: rest => parseUnsignedChars rest
  | l => parseUnsignedChars l

/-- `find_column(df, keywords)` from `src/app.py` lines 71-76: for each
keyword in order, scan the columns in order and return the first column whose
lower-cased name contains the lower-cased keyword; `none` when nothing
matches. -/
def find_column (df : DataFrame) (keywords : List String) : Option String :=
  keywords.findSome? (fun kw => df.cols.find? (fun col => strContains col.toLower kw.toLower))

/-- The numeric-hint test of `clean_numeric_columns` (`src/app.py` line 81):
the lower-cased column name contains "value", "amount" or "probability". -/
def numericHint (col : String) : Bool :=
  strContains col.toLower "value" || strContains col.toLower "amount" ||
    strContains col.toLower "probability"

/-- Effect of `pd.to_numeric(-, errors="coerce")` on one cell. -/
def coerceCell : Cell → Cell
  | Cell.str s =>
    match toNumeric s with
    | some q => Cell.num q
    | none => Cell.absent
  | Cell.num q => Cell.num q
  | Cell.absent => Cell.absent

/-- `clean_numeric_columns(df)` from `src/app.py` lines 79-83: every column
whose name matches the numeric hint is coerced to numeric cell-wise; all
other columns are untouched.  The Python function mutates `df` in place and
returns it; the embedding passes the state explicitly, the returned frame
being the updated state of the argument. -/
def clean_numeric_columns (df : DataFrame) : DataFrame :=
  DataFrame.mk df.cols
    (df.rows.map (fun r =>
      List.zipWith (fun c x => if numericHint c then coerceCell x else x) df.cols r))

/-- Look a cell up in a row by column name (pandas `row[col]`); `absent` when
the column does not exist. -/
def getCell (df : DataFrame) (r : List Cell) (col : String) : Cell :=
  match df.cols.findIdx? (fun c => decide (c = col)) with
  | some i => r.getD i Cell.absent
  | none => Cell.absent

/-- Numeric reading of a cell, as `pd.to_numeric(-, errors="coerce")` sees
it: numbers pass through, text is parsed, anything else is NaN. -/
def cellOptNum : Cell → Option Rat
  | Cell.num q => some q
  | Cell.str s => toNumeric s
  | Cell.absent => none

/-- Contribution of a cell to a pandas `.sum()` (NaN is skipped, i.e. 0). -/
def cellNum (c : Cell) : Rat :=
  (cellOptNum c).getD 0

/-- Contribution of a cell pair to `(to_numeric(a) * to_numeric(b)).sum()`:
NaN propagates through the product and is then skipped by the sum. -/
def cellProd (a b : Cell) : Rat :=
  match cellOptNum a, cellOptNum b with
  | some x, some y => x * y
  | _, _ => 0

/-- The exact status value `"Closed Won"` as a cell. -/
def closedWon : Cell :=
  Cell.str "Closed Won"

/-- `calculate_pipeline(df)` from `src/app.py` lines 89-110. -/
def calculate_pipeline (df : DataFrame) : Rat × Rat :=
  match find_column df ["deal status", "status"], find_column df ["value", "amount"] with
  | some status_col, some value_col =>
    let open_deals := df.rows.filter (fun r => !decide (getCell df r status_col = closedWon))
    let total := (open_deals.map (fun r => cellNum (getCell df r value_col))).sum
    match find_column df ["probability"] with
    | some prob_col =>
      (total,
       (open_deals.map (fun r => cellProd (getCell df r value_col) (getCell df r prob_col))).sum)
    | none => (total, total)
  | _, _ => (0, 0)

/-- The rows of `df` whose status cell is exactly `"Closed Won"`
(`df[df[status_col] == "Closed Won"]`, `src/app.py` line 122). -/
def closedRows (df : DataFrame) (status_col : String) : List (List Cell) :=
  df.rows.filter (fun r => decide (getCell df r status_col = closedWon))

/-- The (sector key, value cell) pairs that `closed.groupby(sector_col)[value_col]`
groups: one pair per `"Closed Won"` row whose sector cell is present (pandas
`groupby` drops rows whose group key is NaN). -/
def sectorKeyed (df : DataFrame) (status_col value_col sector_col : String) :
    List (Cell × Cell) :=
  (closedRows df status_col).filterMap (fun r =>
    match getCell df r sector_col with
    | Cell.absent => none
    | k => some (k, getCell df r value_col))

/-- Summed value of one group: `pd.to_numeric(x, errors="coerce").sum()` over
the value cells whose row has exactly the sector key `k`. -/
def rbsGroupSum (keyed : List (Cell × Cell)) (k : Cell) : Rat :=
  ((keyed.filter (fun p => decide (p.1 = k))).map (fun p => cellNum p.2)).sum

/-- Ordering on group keys used by pandas `groupby(sort=True)`: numbers by
value, strings lexicographically by character code, numbers before strings. -/
def charsLe : List Char → List Char → Bool
  | [], _ => true
  | _ :: _, [] => false
  | a :: as, b :: bs =>
    if a.toNat < b.toNat then true
    else if b.toNat < a.toNat then false
    else charsLe as bs

/-- Key comparison for the groupby key sort. -/
def cellLeB : Cell → Cell → Bool
  | Cell.absent, _ => true
  | _, Cell.absent => false
  | Cell.num a, Cell.num b => decide (a ≤ b)
  | Cell.num _, Cell.str _ => true
  | Cell.str _, Cell.num _ => false
  | Cell.str a, Cell.str b => charsLe a.data b.data

/-- Stable insertion of `a` into `l`: `a` goes in front of the first element
`b` with `le a b`. -/
def insertBy (le : α → α → Bool) (a : α) : List α → List α
  | [] => [a]
  | b :: bs => if le a b then a :: b :: bs else b :: insertBy le a bs

/-- Stable insertion sort, the model of the pandas sorts used by
`revenue_by_sector` (groupby key sort and `sort_values`). -/
def sortBy (le : α → α → Bool) : List α → List α
  | [] => []
  | a :: as => insertBy le a (sortBy le as)

/-- `revenue_by_sector(df)` from `src/app.py` lines 113-131: filter to rows
whose status is exactly `"Closed Won"`; when a sector column resolves, group
by the sector cell (pandas sorts the group keys and drops NaN keys), sum the
value column per group, and sort the groups by summed value descending.
When status, value or sector fail to resolve the result is the empty
series. -/
def revenue_by_sector (df : DataFrame) : List (Cell × Rat) :=
  match find_column df ["deal status", "status"], find_column df ["value", "amount"] with
  | some status_col, some value_col =>
    match find_column df ["sector"] with
    | some sector_col =>
      let keyed := sectorKeyed df status_col value_col sector_col
      let sortedKeys := sortBy cellLeB (keyed.map Prod.fst).dedup
      sortBy (fun a b => decide (b.2 ≤ a.2))
        (sortedKeys.map (fun k => (k, rbsGroupSum keyed k)))
    | none => []
  | _, _ => []

/-- `revenue_by_sector(deals_df).sum()` as used by `build_dashboard`
(`src/app.py` line 162) and the chat handlers: the closed-revenue total. -/
def closedRevenueTotal (df : DataFrame) : Rat :=
  ((revenue_by_sector df).map Prod.snd).sum

/-- Follows the spec's words, for comparison with `closedRevenueTotal`:
"sum of value column over Closed Won records" — the row-wise sum of the value
column over the records whose status is exactly `"Closed Won"`. -/
def closedRevenueRowwise (df : DataFrame) : Rat :=
  match find_column df ["deal status", "status"], find_column df ["value", "amount"] with
  | some status_col, some value_col =>
    ((closedRows df status_col).map (fun r => cellNum (getCell df r value_col))).sum
  | _, _ => 0

/-- `work_order_metrics(df)` from `src/app.py` lines 137-151: total row
count, and exact case-sensitive counts of `"Completed"`, `"In Progress"`
and `"Delayed"` in the status column (pandas `value_counts().get(-, 0)`);
all three counts are 0 when no status column resolves. -/
def work_order_metrics (df : DataFrame) : Nat × Nat × Nat × Nat :=
  match find_column df ["status"] with
  | none => (df.rows.length, 0, 0, 0)
  | some status_col =>
    (df.rows.length,
     (df.rows.filter (fun r => decide (getCell df r status_col = Cell.str "Completed"))).length,
     (df.rows.filter (fun r => decide (getCell df r status_col = Cell.str "In Progress"))).length,
     (df.rows.filter (fun r => decide (getCell df r status_col = Cell.str "Delayed"))).length)

/-- `rule_based_intent(query)` from `src/app.py` lines 236-251. -/
def rule_based_intent (query : String) : String :=
  let q := query.toLower
  if strContains q "pipeline" || strContains q "forecast" then "pipeline"
  else if strContains q "revenue" then "revenue"
  else if strContains q "operation" || strContains q "work order" then "operations"
  else if strContains q "leadership" || strContains q "summary" then "leadership"
  else if strContains q "sector" then "sector"
  else "general"

/-- Shape of the JSON body produced by the Hugging Face inference call, as
`interpret_query` inspects it. -/
inductive HFPayload where
  | genList : String → HFPayload
  | listNoText : HFPayload
  | nonList : HFPayload
  | listRaises : HFPayload
deriving DecidableEq

/-- Outcome of the network interaction inside `interpret_query`'s `try`
block: `exn` models any exception before the payload is inspected (connection
error, timeout, `response.json()` failure); `ok status payload` models a
response whose body parsed as JSON. -/
inductive HFOutcome where
  | exn : HFOutcome
  | ok : Nat → HFPayload → HFOutcome
deriving DecidableEq

/-- The topic list scanned over the generated text (`src/app.py` line 222). -/
def hfTopics : List String :=
  ["pipeline", "revenue", "operations", "leadership", "sector"]

/-- First topic word contained in the lower-cased generated text. -/
def firstTopic (output : String) : Option String :=
  hfTopics.find? (fun t => strContains output t)

/-- `interpret_query(query)` from `src/app.py` lines 182-229, with the
configuration (`HF_API_KEY`, `none` when unset or empty) and the network
outcome as explicit arguments.  `HFPayload.genList t` is a JSON list whose
first element carries `generated_text` `t`; `listNoText` a list whose first
element is a dict without that key; `nonList` a body that is not a list;
`listRaises` a list whose first element cannot be indexed or tested (the
resulting exception is caught by the bare `except`). -/
def interpret_query (hfApiKey : Option String) (outcome : HFOutcome) (query : String) :
    String :=
  match hfApiKey with
  | none => rule_based_intent query
  | some _ =>
    match outcome with
    | HFOutcome.exn => rule_based_intent query
    | HFOutcome.ok status payload =>
      if status ≠ 200 then rule_based_intent query
      else
        match payload with
        | HFPayload.genList t =>
          match firstTopic t.toLower with
          | some intent => intent
          | none => "general"
        | HFPayload.listNoText => "general"
        | HFPayload.nonList => "general"
        | HFPayload.listRaises => rule_based_intent query

/-! Concrete example frames used by counterexamples and witnesses. -/

/-- The deals frame of the spec's own example: two `"Closed Won"` records
whose sector cells differ only by case and trailing whitespace. -/
def exDealsCaseWhitespace : DataFrame :=
  DataFrame.mk ["Item Name", "Deal Status", "Value", "Sector"]
    [[Cell.str "d1", Cell.str "Closed Won", Cell.str "500", Cell.str "Tech"],
     [Cell.str "d2", Cell.str "Closed Won", Cell.str "300", Cell.str "tech "]]

/-- A deals frame with `"Closed Won"` revenue but no sector column. -/
def exDealsNoSector : DataFrame :=
  DataFrame.mk ["Item Name", "Deal Status", "Value"]
    [[Cell.str "d1", Cell.str "Closed Won", Cell.str "500"]]

/-- A deals frame with two `"Closed Won"` sectors of equal revenue, first
encountered in the order `"b"`, `"a"`. -/
def exDealsTie : DataFrame :=
  DataFrame.mk ["Item Name", "Deal Status", "Value", "Sector"]
    [[Cell.str "d1", Cell.str "Closed Won", Cell.str "10", Cell.str "b"],
     [Cell.str "d2", Cell.str "Closed Won", Cell.str "10", Cell.str "a"]]

/-- A deals frame in which every record's status is exactly `"Closed Won"`. -/
def exDealsAllClosed : DataFrame :=
  DataFrame.mk ["Item Name", "Deal Status", "Value"]
    [[Cell.str "d1", Cell.str "Closed Won", Cell.str "500"],
     [Cell.str "d2", Cell.str "Closed Won", Cell.str "300"]]

/-- The work-orders frame of the spec's own example. -/
def exWorkOrders : DataFrame :=
  DataFrame.mk ["Item Name", "Status"]
    [[Cell.str "w1", Cell.str "Completed"],
     [Cell.str "w2", Cell.str "Delayed"],
     [Cell.str "w3", Cell.str "Unknown"]]

/-- A one-column, one-cell frame whose numeric-hinted cell is unparsable. -/
def exUnparsable : DataFrame :=
  DataFrame.mk ["Value"] [[Cell.str "abc"]]

/-- Replace the cell at row `i`, column position `j` of a frame (used to
compare a frame against the same frame with one cell blanked out). -/
def setCell (df : DataFrame) (i j : Nat) (v : Cell) : DataFrame :=
  DataFrame.mk df.cols (df.rows.set i ((df.rows.getD i []).set j v))

/-! Helper lemmas about the stable insertion sort. -/

theorem insertBy_perm {α : Type} (le : α → α → Bool) (a : α) (l : List α) :
    (insertBy le a l).Perm (a :: l) := by
  induction l with
  | nil => simp [insertBy]
  | cons b bs ih =>
    simp only [insertBy]
    cases h : le a b
    · simp only [Bool.false_eq_true, if_false]
      exact (ih.cons b).trans (List.Perm.swap a b bs)
    · simp

theorem sortBy_perm {α : Type} (le : α → α → Bool) (l : List α) :
    (sortBy le l).Perm l := by
  induction l with
  | nil => simp [sortBy]
  | cons a as ih => exact (insertBy_perm le a (sortBy le as)).trans (ih.cons a)

theorem mem_sortBy {α : Type} (le : α → α → Bool) (l : List α) (x : α) :
    x ∈ sortBy le l ↔ x ∈ l :=
  (sortBy_perm le l).mem_iff

theorem pairwise_insertBy {α : Type} (le : α → α → Bool) (K : α → α → Prop)
    (htot : ∀ a b, le a b = false → le b a = true)
    (htrans : ∀ a b c, le a b = true → le b c = true → le a c = true)
    (a : α) (l : List α)
    (hl : l.Pairwise (fun x y => le x y = true ∧ (le y x = true → K x y)))
    (ha : ∀ x ∈ l, K a x) :
    (insertBy le a l).Pairwise (fun x y => le x y = true ∧ (le y x = true → K x y)) := by
  induction l with
  | nil => simp [insertBy]
  | cons b bs ih =>
    rcases List.pairwise_cons.mp hl with ⟨hb, hbs⟩
    simp only [insertBy]
    cases h : le a b
    · simp only [Bool.false_eq_true, if_false]
      refine List.pairwise_cons.mpr ⟨?_, ih hbs (fun x hx => ha x (List.mem_cons_of_mem b hx))⟩
      intro y hy
      have hy' := (insertBy_perm le a bs).mem_iff.mp hy
      rcases List.mem_cons.mp hy' with h1 | hy''
      · subst h1
        exact ⟨htot _ _ h, fun hab => absurd hab (by simp [h])⟩
      · exact hb y hy''
    · simp only [if_true]
      refine List.pairwise_cons.mpr ⟨?_, hl⟩
      intro x hx
      rcases List.mem_cons.mp hx with h1 | hx'
      · subst h1
        exact ⟨h, fun _ => ha _ (List.mem_cons_self _ _)⟩
      · exact ⟨htrans a b x h (hb x hx').1, fun _ => ha x (List.mem_cons_of_mem b hx')⟩

theorem pairwise_sortBy {α : Type} (le : α → α → Bool) (K : α → α → Prop)
    (htot : ∀ a b, le a b = false → le b a = true)
    (htrans : ∀ a b c, le a b = true → le b c = true → le a c = true)
    (l : List α) (hK : l.Pairwise K) :
    (sortBy le l).Pairwise (fun x y => le x y = true ∧ (le y x = true → K x y)) := by
  induction l with
  | nil => simp [sortBy]
  | cons a as ih =>
    rcases List.pairwise_cons.mp hK with ⟨haK, hasK⟩
    exact pairwise_insertBy le K htot htrans a (sortBy le as) (ih hasK)
      (fun x hx => haK x ((sortBy_perm le as).mem_iff.mp hx))

/-! Totality and transitivity of the key and value comparisons. -/

theorem charsLe_cons (x y : Char) (xs ys : List Char) :
    charsLe (x :: xs) (y :: ys) = true ↔
      (x.toNat < y.toNat ∨ (x.toNat = y.toNat ∧ charsLe xs ys = true)) := by
  simp only [charsLe]
  by_cases h1 : x.toNat < y.toNat
  · simp [h1]
  · by_cases h2 : y.toNat < x.toNat
    · have hne : ¬ x.toNat = y.toNat := by omega
      simp [h1, h2, hne]
    · have heq : x.toNat = y.toNat := by omega
      simp [h1, h2, heq]

theorem charsLe_total : ∀ a b : List Char, charsLe a b = false → charsLe b a = true
  | [], _, h => by simp [charsLe] at h
  | _ :: _, [], _ => by simp [charsLe]
  | x :: xs, y :: ys, h => by
    have h' : ¬ (x.toNat < y.toNat ∨ (x.toNat = y.toNat ∧ charsLe xs ys = true)) := by
      rw [← charsLe_cons]
      simp [h]
    push_neg at h'
    rw [charsLe_cons]
    by_cases h2 : y.toNat < x.toNat
    · exact Or.inl h2
    · have heq : x.toNat = y.toNat := by omega
      exact Or.inr ⟨heq.symm,
        charsLe_total xs ys (Bool.eq_false_iff.mpr (h'.2 heq))⟩

theorem charsLe_trans : ∀ a b c : List Char,
    charsLe a b = true → charsLe b c = true → charsLe a c = true
  | [], _, _, _, _ => by simp [charsLe]
  | _ :: _, [], _, h, _ => by simp [charsLe] at h
  | _ :: _, _ :: _, [], _, h => by simp [charsLe] at h
  | x :: xs, y :: ys, z :: zs, h1, h2 => by
    rw [charsLe_cons] at h1 h2 ⊢
    rcases h1 with h1 | ⟨h1e, h1r⟩ <;> rcases h2 with h2 | ⟨h2e, h2r⟩
    · exact Or.inl (by omega)
    · exact Or.inl (by omega)
    · exact Or.inl (by omega)
    · exact Or.inr ⟨by omega, charsLe_trans xs ys zs h1r h2r⟩

theorem cellLeB_total : ∀ a b : Cell, cellLeB a b = false → cellLeB b a = true := by
  intro a b h
  cases a <;> cases b <;> simp_all [cellLeB]
  · exact charsLe_total _ _ h
  · exact le_of_lt h

theorem cellLeB_trans : ∀ a b c : Cell,
    cellLeB a b = true → cellLeB b c = true → cellLeB a c = true := by
  intro a b c h1 h2
  cases a <;> cases b <;> cases c <;> simp_all [cellLeB]
  · exact charsLe_trans _ _ _ h1 h2
  · exact le_trans h1 h2

theorem valLeB_total (a b : Cell × Rat) :
    decide (b.2 ≤ a.2) = false → decide (a.2 ≤ b.2) = true := by
  simp only [decide_eq_false_iff_not, decide_eq_true_eq]
  exact le_of_not_le

theorem valLeB_trans (a b c : Cell × Rat) :
    decide (b.2 ≤ a.2) = true → decide (c.2 ≤ b.2) = true → decide (c.2 ≤ a.2) = true := by
  simp only [decide_eq_true_eq]
  intro h1 h2
  exact le_trans h2 h1

/-! Summation helpers. -/

theorem sum_filter_split {α : Type} (f : α → Rat) (p : α → Bool) (l : List α) :
    ((l.filter p).map f).sum + ((l.filter (fun x => !p x)).map f).sum = (l.map f).sum := by
  induction l with
  | nil => simp
  | cons a t ih =>
    cases h : p a <;> simp [List.filter_cons, h] <;> rw [← ih] <;> ring

theorem sum_groups {α : Type} (f : α → Rat) (key : α → Cell) (keys : List Cell) (l : List α)
    (hnd : keys.Nodup) (hcov : ∀ x ∈ l, key x ∈ keys) :
    (keys.map (fun k => ((l.filter (fun x => decide (key x = k))).map f).sum)).sum
      = (l.map f).sum := by
  induction keys generalizing l with
  | nil =>
    have hl : l = [] := List.eq_nil_iff_forall_not_mem.mpr (fun x hx => by
      have := hcov x hx
      simp at this)
    simp [hl]
  | cons k ks ih =>
    rcases List.nodup_cons.mp hnd with ⟨hk, hks⟩
    have hstep : ∀ k' ∈ ks,
        ((l.filter (fun x => decide (key x = k'))).map f).sum
          = (((l.filter (fun x => !decide (key x = k))).filter
              (fun x => decide (key x = k'))).map f).sum := by
      intro k' hk'
      rw [List.filter_filter]
      congr 1
      congr 1
      apply List.filter_congr
      intro x _
      by_cases hxk : key x = k'
      · have hne : ¬ k' = k := fun hkk => hk (hkk ▸ hk')
        simp [hxk, hne]
      · simp [hxk]
    have hcov' : ∀ x ∈ l.filter (fun x => !decide (key x = k)), key x ∈ ks := by
      intro x hx
      rcases List.mem_filter.mp hx with ⟨hxl, hxp⟩
      have := hcov x hxl
      rcases List.mem_cons.mp this with h1 | h1
      · simp [h1] at hxp
      · exact h1
    simp only [List.map_cons, List.sum_cons]
    rw [List.map_congr_left hstep, ih (l.filter (fun x => !decide (key x = k))) hks hcov']
    exact sum_filter_split f _ l

theorem filterMap_eq_map_of_mem {α β : Type} (g : α → Option β) (h : α → β) (l : List α)
    (hx : ∀ x ∈ l, g x = some (h x)) : l.filterMap g = l.map h := by
  induction l with
  | nil => simp
  | cons a t ih =>
    simp only [List.filterMap_cons, hx a (List.mem_cons_self a t), List.map_cons]
    rw [ih (fun x hxt => hx x (List.mem_cons_of_mem a hxt))]

/-! Structure of `revenue_by_sector` when the three columns resolve. -/

theorem revenue_by_sector_eq (df : DataFrame) (sc vc secc : String)
    (hs : find_column df ["deal status", "status"] = some sc)
    (hv : find_column df ["value", "amount"] = some vc)
    (hsec : find_column df ["sector"] = some secc) :
    revenue_by_sector df =
      sortBy (fun a b => decide (b.2 ≤ a.2))
        ((sortBy cellLeB ((sectorKeyed df sc vc secc).map Prod.fst).dedup).map
          (fun k => (k, rbsGroupSum (sectorKeyed df sc vc secc) k))) := by
  simp [revenue_by_sector, hs, hv, hsec]

theorem sectorKeyed_eq (df : DataFrame) (sc vc secc : String) :
    sectorKeyed df sc vc secc =
      (closedRows df sc).filterMap (fun r =>
        if getCell df r secc = Cell.absent then none
        else some (getCell df r secc, getCell df r vc)) := by
  unfold sectorKeyed
  congr 1
  funext r
  cases h : getCell df r secc <;> simp [h]

theorem mem_sectorKeyed_fst (df : DataFrame) (sc vc secc : String) (k : Cell) :
    k ∈ (sectorKeyed df sc vc secc).map Prod.fst ↔
      (¬ k = Cell.absent ∧ ∃ r ∈ closedRows df sc, getCell df r secc = k) := by
  rw [sectorKeyed_eq]
  constructor
  · intro hmem
    rcases List.mem_map.mp hmem with ⟨p, hp, hfst⟩
    rcases List.mem_filterMap.mp hp with ⟨r, hr, hg⟩
    by_cases hc : getCell df r secc = Cell.absent
    · simp [hc] at hg
    · rw [if_neg hc] at hg
      have hp2 : (getCell df r secc, getCell df r vc) = p := Option.some.inj hg
      have hp1 : p.1 = getCell df r secc := by rw [← hp2]
      refine ⟨?_, r, hr, ?_⟩
      · rw [← hfst, hp1]
        exact hc
      · rw [← hfst, hp1]
  · rintro ⟨hk, r, hr, hc⟩
    refine List.mem_map.mpr ⟨(k, getCell df r vc), List.mem_filterMap.mpr ⟨r, hr, ?_⟩, rfl⟩
    rw [hc, if_neg hk]

/-! Example data frames used by counterexamples and witnesses. -/


/-- C1 (corrected, amended claim): `revenue_by_sector` groups the
`"Closed Won"` records by the exact sector cell value — nothing in the
pipeline lower-cases or trims sector text (`clean_numeric_columns` only
touches numeric-hinted columns).  With resolved status, value and sector
columns, every distinct non-absent sector cell yields exactly one group,
whose sum is the sum of the value cells of the rows carrying exactly that
sector cell. -/
theorem revenueBySector_groups_by_exact_sector_cell (df : DataFrame) (sc vc secc : String)
    (hs : find_column df ["deal status", "status"] = some sc)
    (hv : find_column df ["value", "amount"] = some vc)
    (hsec : find_column df ["sector"] = some secc) :
    ((revenue_by_sector df).map Prod.fst).Nodup
    ∧ (∀ k s, (k, s) ∈ revenue_by_sector df →
        s = rbsGroupSum (sectorKeyed df sc vc secc) k)
    ∧ (∀ k, ¬ k = Cell.absent →
        (∃ r ∈ closedRows df sc, getCell df r secc = k) →
        (k, rbsGroupSum (sectorKeyed df sc vc secc) k) ∈ revenue_by_sector df) := by
  have heq := revenue_by_sector_eq df sc vc secc hs hv hsec
  set keyed := sectorKeyed df sc vc secc with hkeyed
  set sortedKeys := sortBy cellLeB (keyed.map Prod.fst).dedup with hsk
  set groups := sortedKeys.map (fun k => (k, rbsGroupSum keyed k)) with hgroups
  have hperm : (revenue_by_sector df).Perm groups := by
    rw [heq]
    exact sortBy_perm _ _
  have hkeysnd : sortedKeys.Nodup := by
    rw [hsk]
    exact ((sortBy_perm cellLeB _).nodup_iff).mpr (List.nodup_dedup _)
  refine ⟨?_, ?_, ?_⟩
  · have hmapperm : ((revenue_by_sector df).map Prod.fst).Perm (groups.map Prod.fst) :=
      hperm.map Prod.fst
    have hfst : groups.map Prod.fst = sortedKeys := by
      rw [hgroups, List.map_map]
      exact List.map_id _
    rw [hmapperm.nodup_iff, hfst]
    exact hkeysnd
  · intro k s hmem
    have hmg : (k, s) ∈ groups := hperm.mem_iff.mp hmem
    rcases List.mem_map.mp hmg with ⟨k', _, hpair⟩
    have h1 : k' = k := congrArg Prod.fst hpair
    have h2 : rbsGroupSum keyed k' = s := congrArg Prod.snd hpair
    rw [← h2, h1]
  · intro k hk hex
    have hmemk : k ∈ keyed.map Prod.fst := (mem_sectorKeyed_fst df sc vc secc k).mpr ⟨hk, hex⟩
    have hmk : k ∈ sortedKeys := by
      rw [hsk, mem_sortBy]
      exact List.mem_dedup.mpr hmemk
    exact hperm.mem_iff.mpr (List.mem_map.mpr ⟨k, hmk, rfl⟩)

set_option maxRecDepth 10000 in
/-- C1 counterexample: on the spec's own example frame, the two records whose
sector cells are `"Tech"` and `"tech "` remain two distinct groups (500 and
300); they are not merged into one normalized group `"tech"` summing to 800
as the claim asserts. -/
theorem revenueBySector_case_whitespace_counterexample :
    revenue_by_sector (clean_numeric_columns exDealsCaseWhitespace)
        = [(Cell.str "Tech", 500), (Cell.str "tech ", 300)]
      ∧ ¬ (revenue_by_sector (clean_numeric_columns exDealsCaseWhitespace)).length = 1 := by
  with_unfolding_all decide

set_option maxRecDepth 10000 in
/-- Witness for the amended C1 claim at the example frame. -/
theorem revenueBySector_groups_by_exact_sector_cell_witness :
    ((revenue_by_sector (clean_numeric_columns exDealsCaseWhitespace)).map Prod.fst).Nodup :=
  (revenueBySector_groups_by_exact_sector_cell (clean_numeric_columns exDealsCaseWhitespace)
    "Deal Status" "Value" "Sector"
    (by with_unfolding_all decide) (by with_unfolding_all decide)
    (by with_unfolding_all decide)).1


/-- C3 (corrected, amended claim): the closed-revenue total (the sum of
`revenue_by_sector`'s values) is 0 whenever no sector column resolves; when
status, value and sector all resolve it equals the sum of the value column
over the `"Closed Won"` rows whose sector cell is present, and hence equals
the full row-wise closed sum whenever every `"Closed Won"` row carries a
sector value. -/
theorem closedRevenueTotal_eq_rowwise_when_sector_resolves (df : DataFrame) :
    (find_column df ["sector"] = none → closedRevenueTotal df = 0)
    ∧ (∀ sc vc secc, find_column df ["deal status", "status"] = some sc →
        find_column df ["value", "amount"] = some vc →
        find_column df ["sector"] = some secc →
        closedRevenueTotal df = ((sectorKeyed df sc vc secc).map (fun p => cellNum p.2)).sum
        ∧ ((∀ r ∈ closedRows df sc, ¬ getCell df r secc = Cell.absent) →
            closedRevenueTotal df = closedRevenueRowwise df)) := by
  constructor
  · intro hns
    unfold closedRevenueTotal revenue_by_sector
    cases h1 : find_column df ["deal status", "status"] <;>
      cases h2 : find_column df ["value", "amount"] <;> simp [hns]
  · intro sc vc secc hs hv hsec
    have heq := revenue_by_sector_eq df sc vc secc hs hv hsec
    set keyed := sectorKeyed df sc vc secc with hkeyed
    set sortedKeys := sortBy cellLeB (keyed.map Prod.fst).dedup with hsk
    set groups := sortedKeys.map (fun k => (k, rbsGroupSum keyed k)) with hgroups
    have hkeysnd : sortedKeys.Nodup := by
      rw [hsk]
      exact ((sortBy_perm cellLeB _).nodup_iff).mpr (List.nodup_dedup _)
    have hcov : ∀ p ∈ keyed, p.1 ∈ sortedKeys := by
      intro p hp
      rw [hsk, mem_sortBy]
      exact List.mem_dedup.mpr (List.mem_map.mpr ⟨p, hp, rfl⟩)
    have hmain : closedRevenueTotal df = (keyed.map (fun p => cellNum p.2)).sum := by
      unfold closedRevenueTotal
      rw [heq]
      have hp1 : ((sortBy (fun a b => decide (b.2 ≤ a.2)) groups).map Prod.snd).sum
          = (groups.map Prod.snd).sum :=
        ((sortBy_perm (fun a b => decide (b.2 ≤ a.2)) groups).map Prod.snd).sum_eq
      rw [hp1, hgroups, List.map_map]
      exact sum_groups (fun p => cellNum p.2) Prod.fst sortedKeys keyed hkeysnd hcov
    refine ⟨hmain, ?_⟩
    intro hall
    have hkm : keyed = (closedRows df sc).map
        (fun r => (getCell df r secc, getCell df r vc)) := by
      rw [hkeyed, sectorKeyed_eq]
      exact filterMap_eq_map_of_mem _ _ _ (fun r hr => if_neg (hall r hr))
    rw [hmain, hkm, List.map_map]
    simp only [closedRevenueRowwise, hs, hv]
    rfl

set_option maxRecDepth 10000 in
/-- C3 counterexample: one `"Closed Won"` record worth 500 and no sector
column: the sum of `revenue_by_sector`'s values is 0 while the row-wise sum
of the value column over `"Closed Won"` records is 500, so the claimed
equality fails when no sector column resolves. -/
theorem closedRevenueTotal_zero_without_sector_counterexample :
    closedRevenueTotal (clean_numeric_columns exDealsNoSector) = 0
    ∧ closedRevenueRowwise (clean_numeric_columns exDealsNoSector) = 500
    ∧ ¬ closedRevenueTotal (clean_numeric_columns exDealsNoSector)
        = closedRevenueRowwise (clean_numeric_columns exDealsNoSector) := by
  with_unfolding_all decide

set_option maxRecDepth 10000 in
/-- Witness for the amended C3 claim at a frame whose closed rows all carry a
sector cell. -/
theorem closedRevenueTotal_eq_rowwise_witness :
    closedRevenueTotal (clean_numeric_columns exDealsCaseWhitespace)
      = closedRevenueRowwise (clean_numeric_columns exDealsCaseWhitespace) :=
  ((closedRevenueTotal_eq_rowwise_when_sector_resolves
      (clean_numeric_columns exDealsCaseWhitespace)).2
    "Deal Status" "Value" "Sector"
    (by with_unfolding_all decide) (by with_unfolding_all decide)
    (by with_unfolding_all decide)).2
    (by with_unfolding_all decide)

/-- C4 (corrected, amended claim): `revenue_by_sector` output is sorted in
descending order of summed value, but groups with equal sums appear in
ascending order of their sector key (the order produced by pandas
`groupby`'s key sort), not in first-occurrence order: consecutive groups
always satisfy `h.2 ≤ g.2`, and when the sums are equal the keys are
strictly ascending. -/
theorem revenueBySector_sorted_desc_ties_by_key (df : DataFrame) :
    (revenue_by_sector df).Pairwise (fun g h =>
      h.2 ≤ g.2 ∧ (g.2 ≤ h.2 → (cellLeB g.1 h.1 = true ∧ ¬ g.1 = h.1))) := by
  cases hs : find_column df ["deal status", "status"] with
  | none => simp [revenue_by_sector, hs]
  | some sc =>
    cases hv : find_column df ["value", "amount"] with
    | none => simp [revenue_by_sector, hs, hv]
    | some vc =>
      cases hsec : find_column df ["sector"] with
      | none => simp [revenue_by_sector, hs, hv, hsec]
      | some secc =>
        have heq := revenue_by_sector_eq df sc vc secc hs hv hsec
        rw [heq]
        set keyed := sectorKeyed df sc vc secc with hkeyed
        set sortedKeys := sortBy cellLeB (keyed.map Prod.fst).dedup with hsk
        set groups := sortedKeys.map (fun k => (k, rbsGroupSum keyed k)) with hgroups
        have h1 : sortedKeys.Pairwise (fun a b => cellLeB a b = true) := by
          rw [hsk]
          exact (pairwise_sortBy cellLeB Ne cellLeB_total cellLeB_trans _
            (List.nodup_dedup _)).imp (fun h => h.1)
        have h2 : sortedKeys.Nodup := by
          rw [hsk]
          exact ((sortBy_perm cellLeB _).nodup_iff).mpr (List.nodup_dedup _)
        have h3 : sortedKeys.Pairwise (fun a b => cellLeB a b = true ∧ ¬ a = b) := h1.and h2
        have hg : groups.Pairwise (fun g h => cellLeB g.1 h.1 = true ∧ ¬ g.1 = h.1) := by
          rw [hgroups]
          exact List.pairwise_map.mpr (h3.imp (fun h => h))
        have hfinal := pairwise_sortBy (fun a b : Cell × Rat => decide (b.2 ≤ a.2))
          (fun g h => cellLeB g.1 h.1 = true ∧ ¬ g.1 = h.1)
          (fun a b hab => valLeB_total a b hab)
          (fun a b c hab hbc => by
            simp only [decide_eq_true_eq] at hab hbc ⊢
            exact le_trans hbc hab)
          groups hg
        exact hfinal.imp (fun h => ⟨of_decide_eq_true h.1,
          fun hle => h.2 (decide_eq_true hle)⟩)


set_option maxRecDepth 10000 in
/-- C4 counterexample: sectors `"b"` then `"a"` (first-encounter order) with
equal sums 10 come out in key-sorted order `"a"`, `"b"`, not in the claimed
first-occurrence order `"b"`, `"a"`. -/
theorem revenueBySector_tie_order_counterexample :
    ((clean_numeric_columns exDealsTie).rows.map
        (fun r => getCell (clean_numeric_columns exDealsTie) r "Sector"))
      = [Cell.str "b", Cell.str "a"]
    ∧ revenue_by_sector (clean_numeric_columns exDealsTie)
        = [(Cell.str "a", 10), (Cell.str "b", 10)]
    ∧ ¬ revenue_by_sector (clean_numeric_columns exDealsTie)
        = [(Cell.str "b", 10), (Cell.str "a", 10)] := by
  with_unfolding_all decide

/-- C2 (corrected, amended claim): when the delegated call succeeds with
status 200 and a well-formed payload but no recognizable topic substring,
`interpret_query` returns `"general"` directly — it does NOT fall back to
`rule_based_intent`; the rule-based fallback fires only for a missing key, an
exception before the payload is inspected (connection error, timeout,
malformed JSON, unindexable list), or a non-success status. -/
theorem interpretQuery_no_topic_returns_general (k q t : String) (p : HFPayload) (st : Nat)
    (ht : firstTopic t.toLower = none) (hst : ¬ st = 200) :
    interpret_query (some k) (HFOutcome.ok 200 (HFPayload.genList t)) q = "general"
    ∧ interpret_query (some k) (HFOutcome.ok 200 HFPayload.nonList) q = "general"
    ∧ interpret_query (some k) (HFOutcome.ok 200 HFPayload.listNoText) q = "general"
    ∧ interpret_query none (HFOutcome.ok 200 (HFPayload.genList t)) q = rule_based_intent q
    ∧ interpret_query (some k) HFOutcome.exn q = rule_based_intent q
    ∧ interpret_query (some k) (HFOutcome.ok st p) q = rule_based_intent q
    ∧ interpret_query (some k) (HFOutcome.ok 200 HFPayload.listRaises) q
        = rule_based_intent q := by
  refine ⟨?_, ?_, ?_, ?_, ?_, ?_, ?_⟩ <;> simp [interpret_query, ht, hst]

/-- C2 counterexample: a success response whose generated text carries no
topic makes `interpret_query` return `"general"`, while the rule-based
strategy on the same query returns `"revenue"` — so the claimed fallback to
`rule_based_intent` does not happen in this case. -/
theorem interpretQuery_fallback_counterexample :
    interpret_query (some "key") (HFOutcome.ok 200 (HFPayload.genList "no topic here")) "revenue"
      = "general"
    ∧ rule_based_intent "revenue" = "revenue"
    ∧ ¬ interpret_query (some "key") (HFOutcome.ok 200 (HFPayload.genList "no topic here"))
          "revenue"
        = rule_based_intent "revenue" := by
  with_unfolding_all decide

/-- Witness for the amended C2 claim at concrete inputs. -/
theorem interpretQuery_no_topic_returns_general_witness :
    interpret_query (some "key") (HFOutcome.ok 200 (HFPayload.genList "no topic here")) "revenue"
      = "general"
    ∧ interpret_query (some "key") (HFOutcome.ok 500 HFPayload.nonList) "revenue"
      = rule_based_intent "revenue" :=
  ⟨(interpretQuery_no_topic_returns_general "key" "revenue" "no topic here" HFPayload.nonList 500
      (by with_unfolding_all decide) (by decide)).1,
   (interpretQuery_no_topic_returns_general "key" "revenue" "no topic here" HFPayload.nonList 500
      (by with_unfolding_all decide) (by decide)).2.2.2.2.2.1⟩


/-- C5 (confirmed): `calculate_pipeline` keeps exactly the rows whose status
cell is not the exact string `"Closed Won"` and sums the value column over
them; it returns `(0, 0)` when the status or value column fails to resolve,
and `(0, 0)` whenever every record's status is exactly `"Closed Won"`. -/
theorem calculatePipeline_closed_filter (df : DataFrame) :
    ((find_column df ["deal status", "status"] = none
        ∨ find_column df ["value", "amount"] = none) →
      calculate_pipeline df = (0, 0))
    ∧ (∀ sc vc, find_column df ["deal status", "status"] = some sc →
        find_column df ["value", "amount"] = some vc →
        (calculate_pipeline df).1
            = ((df.rows.filter (fun r => !decide (getCell df r sc = closedWon))).map
                (fun r => cellNum (getCell df r vc))).sum
        ∧ ((∀ r ∈ df.rows, getCell df r sc = closedWon) → calculate_pipeline df = (0, 0))) := by
  constructor
  · rintro (h | h)
    · cases h2 : find_column df ["value", "amount"] <;>
        simp [calculate_pipeline, h, h2]
    · cases h1 : find_column df ["deal status", "status"] <;>
        simp [calculate_pipeline, h, h1]
  · intro sc vc hs hv
    constructor
    · cases hp : find_column df ["probability"] <;>
        simp [calculate_pipeline, hs, hv, hp]
    · intro hall
      have hfe : df.rows.filter (fun r => !decide (getCell df r sc = closedWon)) = [] :=
        List.filter_eq_nil_iff.mpr (fun r hr => by simp [hall r hr])
      cases hp : find_column df ["probability"] <;>
        simp [calculate_pipeline, hs, hv, hp, hfe]

set_option maxRecDepth 10000 in
/-- Witness for C5: a frame of only `"Closed Won"` records yields `(0, 0)`. -/
theorem calculatePipeline_closed_filter_witness :
    calculate_pipeline exDealsAllClosed = (0, 0) :=
  ((calculatePipeline_closed_filter exDealsAllClosed).2 "Deal Status" "Value"
    (by with_unfolding_all decide) (by with_unfolding_all decide)).2
    (by with_unfolding_all decide)

/-- C6 (confirmed): `find_column` is pure and total: it returns `none` (not
an error) exactly when no keyword's lower-cased text occurs in any
lower-cased column name, and when keyword `i` is the first keyword matching
any column, the result is the first column (in column order) containing that
keyword. -/
theorem findColumn_first_match (df : DataFrame) (kws : List String) :
    (find_column df kws = none ↔
      ∀ kw ∈ kws, ∀ c ∈ df.cols, ¬ strContains c.toLower kw.toLower = true)
    ∧ (∀ i kw, kws.get? i = some kw →
        (∀ j kw2, j < i → kws.get? j = some kw2 →
          ∀ c ∈ df.cols, ¬ strContains c.toLower kw2.toLower = true) →
        (∃ c ∈ df.cols, strContains c.toLower kw.toLower = true) →
        find_column df kws = df.cols.find? (fun c => strContains c.toLower kw.toLower)) := by
  constructor
  · unfold find_column
    rw [List.findSome?_eq_none_iff]
    constructor
    · intro h kw hkw c hc
      have := h kw hkw
      rw [List.find?_eq_none] at this
      exact this c hc
    · intro h kw hkw
      rw [List.find?_eq_none]
      exact h kw hkw
  · induction kws with
    | nil =>
      intro i kw hkw
      simp at hkw
    | cons kw0 rest ih =>
      intro i kw hkw hprev hex
      cases i with
      | zero =>
        have hkw0 : kw = kw0 := by
          simp at hkw
          exact hkw.symm
        subst hkw0
        rcases hex with ⟨c, hc, hpc⟩
        have hsome : (df.cols.find? (fun c => strContains c.toLower kw.toLower)).isSome :=
          List.find?_isSome.mpr ⟨c, hc, hpc⟩
        rcases Option.isSome_iff_exists.mp hsome with ⟨c2, hc2⟩
        unfold find_column
        rw [List.findSome?_cons, hc2]
      | succ i2 =>
        have hnone : df.cols.find? (fun c => strContains c.toLower kw0.toLower) = none := by
          rw [List.find?_eq_none]
          exact hprev 0 kw0 (Nat.succ_pos i2) rfl
        unfold find_column
        rw [List.findSome?_cons, hnone]
        have hres := ih i2 kw (by simpa using hkw)
          (fun j kw2 hj hkw2 => hprev (j + 1) kw2 (by omega) (by simpa using hkw2)) hex
        unfold find_column at hres
        exact hres

/-- Witness for C6: with keywords `["zzz", "status"]`, the first keyword
matches nothing and the result is the first column containing `"status"`. -/
theorem findColumn_first_match_witness :
    find_column exDealsNoSector ["zzz", "status"]
      = exDealsNoSector.cols.find? (fun c => strContains c.toLower "status".toLower) :=
  (findColumn_first_match exDealsNoSector ["zzz", "status"]).2 1 "status" rfl
    (fun j kw2 hj hkw2 => by
      have hj0 : j = 0 := by omega
      subst hj0
      have hkz : kw2 = "zzz" := (Option.some.inj hkw2).symm
      subst hkz
      with_unfolding_all decide)
    ⟨"Deal Status", by with_unfolding_all decide, by with_unfolding_all decide⟩

/-- Helper: three mutually exclusive filters together keep at most all rows. -/
theorem filter3_length_le {α : Type} (p q r : α → Bool) (l : List α)
    (hpq : ∀ x, ¬(p x = true ∧ q x = true)) (hpr : ∀ x, ¬(p x = true ∧ r x = true))
    (hqr : ∀ x, ¬(q x = true ∧ r x = true)) :
    (l.filter p).length + (l.filter q).length + (l.filter r).length ≤ l.length := by
  induction l with
  | nil => simp
  | cons a t ih =>
    have h1 := hpq a
    have h2 := hpr a
    have h3 := hqr a
    cases hp : p a <;> cases hq : q a <;> cases hr : r a <;>
      simp_all [List.filter_cons] <;> omega


/-- C7 (confirmed): `work_order_metrics` always reports the row count as
`total`; with a resolved status column the three buckets are the exact
case-sensitive counts of `"Completed"`, `"In Progress"` and `"Delayed"`
(so their sum is at most `total`); without one, all three buckets are 0. -/
theorem workOrderMetrics_counts (df : DataFrame) :
    (work_order_metrics df).1 = df.rows.length
    ∧ (find_column df ["status"] = none →
        work_order_metrics df = (df.rows.length, 0, 0, 0))
    ∧ (∀ sc, find_column df ["status"] = some sc →
        work_order_metrics df
            = (df.rows.length,
               (df.rows.filter (fun r => decide (getCell df r sc = Cell.str "Completed"))).length,
               (df.rows.filter (fun r => decide (getCell df r sc = Cell.str "In Progress"))).length,
               (df.rows.filter (fun r => decide (getCell df r sc = Cell.str "Delayed"))).length)
        ∧ (df.rows.filter (fun r => decide (getCell df r sc = Cell.str "Completed"))).length
            + (df.rows.filter (fun r => decide (getCell df r sc = Cell.str "In Progress"))).length
            + (df.rows.filter (fun r => decide (getCell df r sc = Cell.str "Delayed"))).length
          ≤ df.rows.length) := by
  refine ⟨?_, ?_, ?_⟩
  · cases h : find_column df ["status"] <;> simp [work_order_metrics, h]
  · intro h
    simp [work_order_metrics, h]
  · intro sc hsc
    constructor
    · simp [work_order_metrics, hsc]
    · apply filter3_length_le
      · intro x
        rintro ⟨hx1, hx2⟩
        simp only [decide_eq_true_eq] at hx1 hx2
        rw [hx1] at hx2
        exact absurd hx2 (by decide)
      · intro x
        rintro ⟨hx1, hx2⟩
        simp only [decide_eq_true_eq] at hx1 hx2
        rw [hx1] at hx2
        exact absurd hx2 (by decide)
      · intro x
        rintro ⟨hx1, hx2⟩
        simp only [decide_eq_true_eq] at hx1 hx2
        rw [hx1] at hx2
        exact absurd hx2 (by decide)

set_option maxRecDepth 10000 in
/-- Witness for C7 on the spec's example: `(3, 1, 0, 1)`. -/
theorem workOrderMetrics_counts_witness :
    work_order_metrics exWorkOrders = (3, 1, 0, 1) := by
  have h := ((workOrderMetrics_counts exWorkOrders).2.2 "Status"
    (by with_unfolding_all decide)).1
  rw [h]
  with_unfolding_all decide

/-- C8 (confirmed): the rule-based classifier is total and deterministic: it
always returns one of the six intents, and each outcome is characterized by
the fixed priority cascade over the lower-cased query — "pipeline"/"forecast"
first, then "revenue", then "operation"/"work order", then
"leadership"/"summary", then "sector", else "general". -/
theorem ruleBasedIntent_priority_total (q : String) :
    rule_based_intent q ∈ ["pipeline", "revenue", "operations", "leadership", "sector", "general"]
    ∧ (rule_based_intent q = "pipeline" ↔
        (strContains q.toLower "pipeline" || strContains q.toLower "forecast") = true)
    ∧ (rule_based_intent q = "revenue" ↔
        ((strContains q.toLower "pipeline" || strContains q.toLower "forecast") = false
          ∧ strContains q.toLower "revenue" = true))
    ∧ (rule_based_intent q = "operations" ↔
        ((strContains q.toLower "pipeline" || strContains q.toLower "forecast") = false
          ∧ strContains q.toLower "revenue" = false
          ∧ (strContains q.toLower "operation" || strContains q.toLower "work order") = true))
    ∧ (rule_based_intent q = "leadership" ↔
        ((strContains q.toLower "pipeline" || strContains q.toLower "forecast") = false
          ∧ strContains q.toLower "revenue" = false
          ∧ (strContains q.toLower "operation" || strContains q.toLower "work order") = false
          ∧ (strContains q.toLower "leadership" || strContains q.toLower "summary") = true))
    ∧ (rule_based_intent q = "sector" ↔
        ((strContains q.toLower "pipeline" || strContains q.toLower "forecast") = false
          ∧ strContains q.toLower "revenue" = false
          ∧ (strContains q.toLower "operation" || strContains q.toLower "work order") = false
          ∧ (strContains q.toLower "leadership" || strContains q.toLower "summary") = false
          ∧ strContains q.toLower "sector" = true))
    ∧ (rule_based_intent q = "general" ↔
        ((strContains q.toLower "pipeline" || strContains q.toLower "forecast") = false
          ∧ strContains q.toLower "revenue" = false
          ∧ (strContains q.toLower "operation" || strContains q.toLower "work order") = false
          ∧ (strContains q.toLower "leadership" || strContains q.toLower "summary") = false
          ∧ strContains q.toLower "sector" = false)) := by
  cases h1 : (strContains q.toLower "pipeline" || strContains q.toLower "forecast") <;>
    cases h2 : strContains q.toLower "revenue" <;>
    cases h3 : (strContains q.toLower "operation" || strContains q.toLower "work order") <;>
    cases h4 : (strContains q.toLower "leadership" || strContains q.toLower "summary") <;>
    cases h5 : strContains q.toLower "sector" <;>
    simp [rule_based_intent, h1, h2, h3, h4, h5]


/-- Mapping commutes with point update. -/
theorem map_set_comm {α β : Type} (f : α → β) :
    ∀ (l : List α) (n : Nat) (a : α), (l.set n a).map f = (l.map f).set n (f a)
  | [], _, _ => by simp
  | x :: xs, 0, a => by simp
  | x :: xs, n + 1, a => by simp [map_set_comm f xs n a]

/-- Cell access through `zipWith`. -/
theorem zipWith_getElem? {α β γ : Type} (f : α → β → γ) :
    ∀ (as : List α) (bs : List β) (n : Nat),
      (List.zipWith f as bs)[n]? =
        match as[n]?, bs[n]? with
        | some a, some b => some (f a b)
        | _, _ => none
  | [], bs, n => by cases bs <;> simp
  | _ :: _, [], n => by simp
  | a :: as, b :: bs, 0 => by simp
  | a :: as, b :: bs, n + 1 => by
    simpa using zipWith_getElem? f as bs n

/-- Updating the right list under `zipWith` at a position the left list
covers updates the result pointwise. -/
theorem zipWith_set_right {α β γ : Type} (f : α → β → γ) :
    ∀ (as : List α) (bs : List β) (j : Nat) (a : α) (v : β),
      as[j]? = some a →
      List.zipWith f as (bs.set j v) = (List.zipWith f as bs).set j (f a v)
  | [], _, j, _, _, h => by simp at h
  | a0 :: as, [], 0, a, v, h => by simp
  | a0 :: as, [], j + 1, a, v, h => by simp
  | a0 :: as, b0 :: bs, 0, a, v, h => by
    have ha : a = a0 := (Option.some.inj (by simpa using h)).symm
    subst ha
    simp
  | a0 :: as, b0 :: bs, j + 1, a, v, h => by
    simp only [List.set_cons_succ, List.zipWith_cons_cons]
    rw [zipWith_set_right f as bs j a v (by simpa using h)]

/-- Setting a position to the value it already holds is the identity. -/
theorem set_getElem?_self {α : Type} :
    ∀ (l : List α) (n : Nat) (a : α), l[n]? = some a → l.set n a = l
  | [], _, _, h => by simp at h
  | x :: xs, 0, a, h => by
    have : a = x := (Option.some.inj (by simpa using h)).symm
    simp [this]
  | x :: xs, n + 1, a, h => by
    simp only [List.set_cons_succ]
    rw [set_getElem?_self xs n a (by simpa using h)]

/-- C9 (confirmed): numeric coercion never raises and an unparsable cell in a
numeric-hinted column behaves exactly like an absent cell: the normalized
frame is identical to the normalized frame with that cell blanked out, the
cell itself normalizes to `absent`, and both metric computations
(`calculate_pipeline`, `revenue_by_sector`) are unchanged — the cell
contributes nothing to any sum. -/
theorem unparsableCell_behaves_as_absent (df : DataFrame) (i j : Nat) (c : String) (s : String)
    (hc : df.cols[j]? = some c) (hh : numericHint c = true)
    (hcell : (df.rows.getD i [])[j]? = some (Cell.str s))
    (hu : toNumeric s = none) :
    clean_numeric_columns df = clean_numeric_columns (setCell df i j Cell.absent)
    ∧ ((clean_numeric_columns df).rows.getD i [])[j]? = some Cell.absent
    ∧ calculate_pipeline (clean_numeric_columns df)
        = calculate_pipeline (clean_numeric_columns (setCell df i j Cell.absent))
    ∧ revenue_by_sector (clean_numeric_columns df)
        = revenue_by_sector (clean_numeric_columns (setCell df i j Cell.absent)) := by
  have hilen : i < df.rows.length := by
    by_contra hge
    push_neg at hge
    rw [List.getD_eq_getElem?_getD, List.getElem?_eq_none hge] at hcell
    simp at hcell
  obtain ⟨r, hr⟩ : ∃ r, df.rows[i]? = some r := ⟨df.rows[i], List.getElem?_eq_getElem hilen⟩
  have hrD : df.rows.getD i [] = r := by
    rw [List.getD_eq_getElem?_getD, hr]
    rfl
  rw [hrD] at hcell
  have habs : (if numericHint c = true then coerceCell Cell.absent else Cell.absent)
      = Cell.absent := by
    by_cases h2 : numericHint c = true <;> simp [h2, coerceCell]
  have hgset : List.zipWith (fun c x => if numericHint c then coerceCell x else x) df.cols
        (r.set j Cell.absent)
      = (List.zipWith (fun c x => if numericHint c then coerceCell x else x) df.cols r).set j
          Cell.absent := by
    rw [zipWith_set_right _ df.cols r j c Cell.absent hc, habs]
  have hgrj : (List.zipWith (fun c x => if numericHint c then coerceCell x else x)
        df.cols r)[j]? = some Cell.absent := by
    rw [zipWith_getElem?, hc, hcell]
    simp [hh, coerceCell, hu]
  have hginner : (List.zipWith (fun c x => if numericHint c then coerceCell x else x)
        df.cols r).set j Cell.absent
      = List.zipWith (fun c x => if numericHint c then coerceCell x else x) df.cols r :=
    set_getElem?_self _ j Cell.absent hgrj
  have hmain : clean_numeric_columns df = clean_numeric_columns (setCell df i j Cell.absent) := by
    unfold clean_numeric_columns setCell
    simp only [hrD]
    congr 1
    rw [map_set_comm, hgset, hginner]
    exact (set_getElem?_self _ i _ (by rw [List.getElem?_map, hr]; rfl)).symm
  refine ⟨hmain, ?_, by rw [hmain], by rw [hmain]⟩
  have hcleanrow : (clean_numeric_columns df).rows.getD i []
      = List.zipWith (fun c x => if numericHint c then coerceCell x else x) df.cols r := by
    unfold clean_numeric_columns
    rw [List.getD_eq_getElem?_getD, List.getElem?_map, hr]
    rfl
  rw [hcleanrow]
  exact hgrj


/-- Witness for C9 at a concrete unparsable cell. -/
theorem unparsableCell_behaves_as_absent_witness :
    clean_numeric_columns exUnparsable
      = clean_numeric_columns (setCell exUnparsable 0 0 Cell.absent)
    ∧ ((clean_numeric_columns exUnparsable).rows.getD 0 [])[0]? = some Cell.absent :=
  ⟨(unparsableCell_behaves_as_absent exUnparsable 0 0 "Value" "abc"
      (by with_unfolding_all decide) (by with_unfolding_all decide)
      (by with_unfolding_all decide) (by with_unfolding_all decide)).1,
   (unparsableCell_behaves_as_absent exUnparsable 0 0 "Value" "abc"
      (by with_unfolding_all decide) (by with_unfolding_all decide)
      (by with_unfolding_all decide) (by with_unfolding_all decide)).2.1⟩

/-- C10 (confirmed): `clean_numeric_columns` updates its argument in place
and returns it; modelled as a state transformer, the returned frame is the
updated state.  It preserves the column list and the row count, overwrites
every cell of a numeric-hinted column with its coerced value (so callers
must not rely on the original text), and leaves every cell of a column whose
name contains none of "value"/"amount"/"probability" unchanged. -/
theorem cleanNumericColumns_frame (df : DataFrame) :
    (clean_numeric_columns df).cols = df.cols
    ∧ (clean_numeric_columns df).rows.length = df.rows.length
    ∧ (∀ (i j : Nat) (c : String), df.cols[j]? = some c → numericHint c = false →
        ((clean_numeric_columns df).rows.getD i [])[j]? = (df.rows.getD i [])[j]?)
    ∧ (∀ (i j : Nat) (c : String), df.cols[j]? = some c → numericHint c = true →
        i < df.rows.length →
        ((clean_numeric_columns df).rows.getD i [])[j]?
          = ((df.rows.getD i [])[j]?).map coerceCell) := by
  refine ⟨rfl, by simp [clean_numeric_columns], ?_, ?_⟩
  · intro i j c hc hh
    by_cases hi : i < df.rows.length
    · obtain ⟨r, hr⟩ : ∃ r, df.rows[i]? = some r := ⟨df.rows[i], List.getElem?_eq_getElem hi⟩
      have hrD : df.rows.getD i [] = r := by
        rw [List.getD_eq_getElem?_getD, hr]
        rfl
      have hcleanrow : (clean_numeric_columns df).rows.getD i []
          = List.zipWith (fun c x => if numericHint c then coerceCell x else x) df.cols r := by
        unfold clean_numeric_columns
        rw [List.getD_eq_getElem?_getD, List.getElem?_map, hr]
        rfl
      rw [hrD, hcleanrow, zipWith_getElem?, hc]
      cases hx : r[j]? <;> simp [hh]
    · push_neg at hi
      have h1 : (clean_numeric_columns df).rows.getD i [] = [] := by
        unfold clean_numeric_columns
        rw [List.getD_eq_getElem?_getD, List.getElem?_map, List.getElem?_eq_none hi]
        rfl
      have h2 : df.rows.getD i [] = [] := by
        rw [List.getD_eq_getElem?_getD, List.getElem?_eq_none hi]
        rfl
      rw [h1, h2]
  · intro i j c hc hh hi
    obtain ⟨r, hr⟩ : ∃ r, df.rows[i]? = some r := ⟨df.rows[i], List.getElem?_eq_getElem hi⟩
    have hrD : df.rows.getD i [] = r := by
      rw [List.getD_eq_getElem?_getD, hr]
      rfl
    have hcleanrow : (clean_numeric_columns df).rows.getD i []
        = List.zipWith (fun c x => if numericHint c then coerceCell x else x) df.cols r := by
      unfold clean_numeric_columns
      rw [List.getD_eq_getElem?_getD, List.getElem?_map, hr]
      rfl
    rw [hrD, hcleanrow, zipWith_getElem?, hc]
    cases hx : r[j]? <;> simp [hh]

/-- Witness for C10: in a concrete frame, the non-hinted `"Deal Status"`
column is untouched while the `"Value"` column is coerced. -/
theorem cleanNumericColumns_frame_witness :
    ((clean_numeric_columns exDealsNoSector).rows.getD 0 [])[1]?
        = (exDealsNoSector.rows.getD 0 [])[1]?
    ∧ ((clean_numeric_columns exDealsNoSector).rows.getD 0 [])[2]?
        = ((exDealsNoSector.rows.getD 0 [])[2]?).map coerceCell :=
  ⟨(cleanNumericColumns_frame exDealsNoSector).2.2.1 0 1 "Deal Status"
      (by with_unfolding_all decide) (by with_unfolding_all decide),
   (cleanNumericColumns_frame exDealsNoSector).2.2.2 0 2 "Value"
      (by with_unfolding_all decide) (by with_unfolding_all decide)
      (by with_unfolding_all decide)⟩
